import Mathlib

/-!
Verification development for the spatial resource allocation engine of this
repository.  The engine is embodied twice in the source: a parking-spot
allocator (`parking_lot.py`) and a storage-locker allocator
(`locker_and_packages.py`).  Both are shallowly embedded below with value
semantics; mutable Python objects that are aliased (lockers referenced both
from `lockers_by_size` and `lockers_by_customer`) are represented through an
explicit object store (`heap : List Locker`) with natural-number references,
so that Python object identity is reference equality.
-/

/-! ## Generic list helpers

`listModify l n f` applies `f` to the element at position `n`, leaving the
list unchanged when `n` is out of range.  It models an in-place mutation of
the `n`-th object of a Python list. -/

def listModify (l : List α) (n : Nat) (f : α → α) : List α :=
  match l, n with
  | [], _ => []
  | x :: xs, 0 => f x :: xs
  | x :: xs, Nat.succ m => x :: listModify xs m f

/-- First index (counting from `n`) of an element satisfying `p`; renders a
`for` loop with an early `return` over a list. -/
def firstGo (p : α → Bool) (n : Nat) : List α → Option Nat
  | [] => none
  | x :: xs => if p x then some n else firstGo p (n + 1) xs

/-- One iteration of a running-best loop: if the current element (paired with
its index) passes the filter `P` and is strictly `better` than the current
best (or there is no current best), it becomes the new best. -/
def selStep (P : α → Bool) (better : α → α → Bool)
    (best : Option (Nat × α)) (ix : Nat × α) : Option (Nat × α) :=
  if P ix.2 then
    match best with
    | none => some ix
    | some jb => if better ix.2 jb.2 then some ix else best
  else best

/-- Tail-recursive running-best loop over a list, indices counted from `n`;
this is the direct rendering of the `for`-loop-with-running-best pattern used
by the best-fit and closest-to-entrance strategies. -/
def bestGo (P : α → Bool) (better : α → α → Bool)
    (acc : Option (Nat × α)) (n : Nat) : List α → Option (Nat × α)
  | [] => acc
  | x :: xs => bestGo P better (selStep P better acc (n, x)) (n + 1) xs

/-- Structural-recursion companion of `bestGo` (first index attaining the
best value); used only to reason about `bestGo`. -/
def selGo (P : α → Bool) (mu : α → Nat) (n : Nat) : List α → Option (Nat × α)
  | [] => none
  | x :: xs =>
    if P x then
      match selGo P mu (n + 1) xs with
      | none => some (n, x)
      | some jb => if mu jb.2 < mu x then some jb else some (n, x)
    else selGo P mu (n + 1) xs

/-- Merge an accumulator with the result of scanning the remainder of the
list; used only to reason about `bestGo`. -/
def selMerge (mu : α → Nat) (acc r : Option (Nat × α)) : Option (Nat × α) :=
  match acc, r with
  | none, r => r
  | some a, none => some a
  | some a, some jb => if mu jb.2 < mu a.2 then some jb else some a

/-! ## Parking lot (`parking_lot.py`)

`ParkingSpot.size` is a Python string always drawn from
`{'motorcycle', 'compact', 'large'}` (the keys of `BestFitStrategy`'s
`size_priority` table); it is embedded as the enumeration `SpotSize`. -/

inductive VehicleType
  | car
  | motorcycle
deriving DecidableEq

structure Vehicle where
  vehicle_type : VehicleType
  license_plate : String
deriving DecidableEq

inductive SpotSize
  | motorcycle
  | compact
  | large
deriving DecidableEq

structure ParkingSpot where
  spot_id : String
  size : SpotSize
  distance_to_entrance : Nat
  vehicle : Option Vehicle
deriving DecidableEq

structure ParkingLevel where
  level_id : String
  spots : List ParkingSpot
deriving DecidableEq

def ParkingSpot.is_available (s : ParkingSpot) : Bool :=
  s.vehicle.isNone

/-- All spots of the lot in container-declaration order, spots within a
level in declaration order: the iteration order of the nested
`for level in levels: for spot in level.spots` loops. -/
def allSpots : List ParkingLevel → List ParkingSpot
  | [] => []
  | l :: rest => l.spots ++ allSpots rest

/-- `FirstAvailableStrategy._can_fit`. -/
def firstAvailable_can_fit (v : Vehicle) (s : ParkingSpot) : Bool :=
  match v.vehicle_type with
  | VehicleType.motorcycle => true
  | VehicleType.car => s.size == SpotSize.compact || s.size == SpotSize.large

/-- `BestFitStrategy._can_fit`. -/
def bestFit_can_fit (v : Vehicle) (s : ParkingSpot) : Bool :=
  match v.vehicle_type with
  | VehicleType.motorcycle => true
  | VehicleType.car => s.size == SpotSize.compact || s.size == SpotSize.large

/-- `ClosestToEntranceStrategy._can_fit`. -/
def closest_can_fit (v : Vehicle) (s : ParkingSpot) : Bool :=
  match v.vehicle_type with
  | VehicleType.motorcycle => true
  | VehicleType.car => s.size == SpotSize.compact || s.size == SpotSize.large

/-- `BestFitStrategy`'s `size_priority = \x7b'motorcycle': 0, 'compact': 1, 'large': 2\x7d`. -/
def bestFit_size_priority : SpotSize → Nat
  | SpotSize.motorcycle => 0
  | SpotSize.compact => 1
  | SpotSize.large => 2

/-- `BestFitStrategy._is_better_spot`. -/
def bestFit_is_better_spot (spot best_spot : ParkingSpot) : Bool :=
  decide (bestFit_size_priority spot.size < bestFit_size_priority best_spot.size)

/-- `ClosestToEntranceStrategy`'s comparison
`spot.distance_to_entrance < closest_spot.distance_to_entrance`. -/
def closest_is_closer_spot (spot closest_spot : ParkingSpot) : Bool :=
  decide (spot.distance_to_entrance < closest_spot.distance_to_entrance)

/-- `FirstAvailableStrategy.find_spot`: first free spot the vehicle fits in,
in declaration order; the result is the index into `allSpots levels` of the
spot object returned by the Python code (`none` for Python's `None`). -/
def firstAvailable_find_spot (v : Vehicle) (levels : List ParkingLevel) : Option Nat :=
  firstGo (fun s => s.is_available && firstAvailable_can_fit v s) 0 (allSpots levels)

/-- `BestFitStrategy.find_spot`: running-best scan, a free fitting spot
replaces the current best exactly when `_is_better_spot` holds. -/
def bestFit_find_spot (v : Vehicle) (levels : List ParkingLevel) : Option Nat :=
  (bestGo (fun s => s.is_available && bestFit_can_fit v s)
    bestFit_is_better_spot none 0 (allSpots levels)).map Prod.fst

/-- `ClosestToEntranceStrategy.find_spot`: running-best scan on
`distance_to_entrance` with a strict comparison. -/
def closestToEntrance_find_spot (v : Vehicle) (levels : List ParkingLevel) : Option Nat :=
  (bestGo (fun s => s.is_available && closest_can_fit v s)
    closest_is_closer_spot none 0 (allSpots levels)).map Prod.fst

inductive PStrategy
  | firstAvailable
  | bestFit
  | closestToEntrance
deriving DecidableEq

/-- Dispatch on the strategy object held by the controller. -/
def find_spot : PStrategy → Vehicle → List ParkingLevel → Option Nat
  | PStrategy.firstAvailable, v, levels => firstAvailable_find_spot v levels
  | PStrategy.bestFit, v, levels => bestFit_find_spot v levels
  | PStrategy.closestToEntrance, v, levels => closestToEntrance_find_spot v levels

/-- Mutate the spot at flat position `n` of the lot (identity when out of
range); models the in-place mutation of the spot object found by a strategy. -/
def setSpotAt (levels : List ParkingLevel) (n : Nat) (f : ParkingSpot → ParkingSpot) :
    List ParkingLevel :=
  match levels with
  | [] => []
  | l :: rest =>
    if n < l.spots.length then
      { l with spots := listModify l.spots n f } :: rest
    else
      l :: setSpotAt rest (n - l.spots.length) f

/-- `ParkingLotController.park_vehicle`: ask the strategy for a spot; on
success mutate that spot's `vehicle` field.  The Python method returns a
success message naming `spot.spot_id`, or `"No available spot"`; this is
rendered as `some` flat index of the parked spot versus `none`. -/
def park_vehicle (st : PStrategy) (levels : List ParkingLevel) (v : Vehicle) :
    List ParkingLevel × Option Nat :=
  match find_spot st v levels with
  | some i => (setSpotAt levels i (fun s => { s with vehicle := some v }), some i)
  | none => (levels, none)

/-- `ParkingLotController.add_parking_spot`: append the new spot to the first
level whose id matches, otherwise create the level (appended at the end of
the lot) holding just the new spot.  A fresh `ParkingSpot` has
`vehicle = None`. -/
def add_parking_spot (levels : List ParkingLevel) (level_id spot_id : String)
    (size : SpotSize) (distance_to_entrance : Nat) : List ParkingLevel :=
  match levels with
  | [] => [⟨level_id, [⟨spot_id, size, distance_to_entrance, none⟩]⟩]
  | l :: rest =>
    if l.level_id == level_id then
      { l with spots := l.spots ++ [⟨spot_id, size, distance_to_entrance, none⟩] } :: rest
    else
      l :: add_parking_spot rest level_id spot_id size distance_to_entrance

/-- The vehicle occupying the spot at flat position `i`, if any. -/
def spotVehicleAt (levels : List ParkingLevel) (i : Nat) : Option Vehicle :=
  ((allSpots levels).get? i).bind (fun s => s.vehicle)

/-! ## Storage lockers (`locker_and_packages.py`) -/

inductive PackageSize
  | SMALL
  | MEDIUM
  | LARGE
deriving DecidableEq

structure Package where
  size : PackageSize
  customer_id : String
deriving DecidableEq

structure Locker where
  locker_id : String
  size : PackageSize
  package : Option Package
deriving DecidableEq

def Locker.is_available (lk : Locker) : Bool :=
  lk.package.isNone

/-- `LockerManager`'s state.  `heap` is the object store for `Locker`
objects (a `Nat` is an object reference); `lockers_by_size` is the
`defaultdict(list)` keyed by size in key-insertion order; and
`lockers_by_customer` is the customer dictionary, holding references. -/
structure LockerManager where
  heap : List Locker
  lockers_by_size : List (PackageSize × List Nat)
  lockers_by_customer : String → Option Nat

/-- Bucket of a size key (`[]` when the key is absent). -/
def bsGet (bs : List (PackageSize × List Nat)) (s : PackageSize) : List Nat :=
  match bs with
  | [] => []
  | e :: rest => if e.1 = s then e.2 else bsGet rest s

/-- `defaultdict` access inserts an empty bucket for a missing key. -/
def bsEnsure (bs : List (PackageSize × List Nat)) (s : PackageSize) :
    List (PackageSize × List Nat) :=
  if bs.any (fun e => e.1 = s) then bs else bs ++ [(s, [])]

/-- Append a reference to a size's bucket, creating the bucket (at the end,
matching `defaultdict` key-insertion order) when the key is new. -/
def bsAppend (bs : List (PackageSize × List Nat)) (s : PackageSize) (r : Nat) :
    List (PackageSize × List Nat) :=
  match bs with
  | [] => [(s, [r])]
  | e :: rest => if e.1 = s then (e.1, e.2 ++ [r]) :: rest else e :: bsAppend rest s r

/-- `LockerManager.add_locker`: the locker object is placed in the store and
its reference appended to its size's bucket. -/
def LockerManager.add_locker (m : LockerManager) (locker : Locker) : LockerManager :=
  { heap := m.heap ++ [locker]
    lockers_by_size := bsAppend m.lockers_by_size locker.size m.heap.length
    lockers_by_customer := m.lockers_by_customer }

/-- Whether the locker referenced by `r` exists and is available. -/
def availAt (m : LockerManager) (r : Nat) : Bool :=
  ((m.heap.get? r).map Locker.is_available).getD false

/-- Size of the locker referenced by `r`. -/
def sizeAt (m : LockerManager) (r : Nat) : Option PackageSize :=
  (m.heap.get? r).map Locker.size

/-- Customer id of the package stored in the locker referenced by `r`. -/
def occupantAt (m : LockerManager) (r : Nat) : Option String :=
  ((m.heap.get? r).bind (fun lk => lk.package)).map Package.customer_id

/-- `LockerManager.find_available_locker`: list comprehension over the
size's bucket filtered by availability, returning its head.  The bare
`defaultdict` access `self.lockers_by_size[size]` inserts an empty bucket
when the size key is missing, hence the returned manager state. -/
def LockerManager.find_available_locker (m : LockerManager) (size : PackageSize) :
    LockerManager × Option Nat :=
  let m1 : LockerManager := { m with lockers_by_size := bsEnsure m.lockers_by_size size }
  let available_lockers := (bsGet m1.lockers_by_size size).filter (fun r => availAt m1 r)
  (m1, available_lockers.head?)

/-- `LockerManager.find_locker_by_customer`. -/
def LockerManager.find_locker_by_customer (m : LockerManager) (customer_id : String) :
    Option Nat :=
  m.lockers_by_customer customer_id

/-- `LockerManager.store_package`: mutate the locker object referenced by
`r` and point `lockers_by_customer[package.customer_id]` at it. -/
def LockerManager.store_package (m : LockerManager) (r : Nat) (package : Package) :
    LockerManager :=
  { m with
    heap := listModify m.heap r (fun lk => { lk with package := some package })
    lockers_by_customer := fun c =>
      if c = package.customer_id then some r else m.lockers_by_customer c }

/-- `LockerManager.retrieve_package`: look the customer up; when present,
empty the referenced locker, delete the dictionary entry and return the
locker's (previous) package. -/
def LockerManager.retrieve_package (m : LockerManager) (customer_id : String) :
    LockerManager × Option Package :=
  match m.lockers_by_customer customer_id with
  | none => (m, none)
  | some r =>
    ({ m with
        heap := listModify m.heap r (fun lk => { lk with package := none })
        lockers_by_customer := fun c =>
          if c = customer_id then none else m.lockers_by_customer c },
      (m.heap.get? r).bind (fun lk => lk.package))

inductive LStrategy
  | firstAvailable
  | mostAvailable
deriving DecidableEq

/-- `FirstAvailableStrategy.allocate_locker` /
`MostAvailableStrategy.allocate_locker`.  The most-available variant scans
`lockers_by_size.items()` in key order for the size with the largest count of
available lockers (strict improvement, starting from `-1`, so the first
maximal size wins) and first-matches inside that size; `if best_size:` is
true exactly for `some` since every `PackageSize` member is truthy. -/
def allocate_locker : LStrategy → LockerManager → Package → LockerManager × Option Nat
  | LStrategy.firstAvailable, m, package => m.find_available_locker package.size
  | LStrategy.mostAvailable, m, _ =>
    let best := m.lockers_by_size.foldl
      (fun (acc : Int × Option PackageSize) e =>
        let available_count : Int := (e.2.filter (fun r => availAt m r)).length
        if available_count > acc.1 then (available_count, some e.1) else acc)
      (-1, none)
    match best.2 with
    | some best_size => m.find_available_locker best_size
    | none => (m, none)

/-- `LockerController.receive_package`: ask the strategy for a locker; on
success store the package there.  Python returns the `locker_id` string or
the sentinel `"No available locker"`; rendered as `some` reference of the
chosen locker versus `none`. -/
def receive_package (st : LStrategy) (m : LockerManager) (package : Package) :
    LockerManager × Option Nat :=
  match allocate_locker st m package with
  | (m1, some r) => (m1.store_package r package, some r)
  | (m1, none) => (m1, none)

def emptyManager : LockerManager :=
  { heap := [], lockers_by_size := [], lockers_by_customer := fun _ => none }

/-- One engine operation on the shared `LockerManager`: provisioning a fresh
locker (`add_locker(Locker(locker_id, size))`, whose `package` starts as
`None`), an allocation through `LockerController.receive_package` under
either strategy, or a release through `LockerController.retrieve_package`. -/
inductive LStep : LockerManager → LockerManager → Prop
  | provision (m : LockerManager) (locker_id : String) (size : PackageSize) :
      LStep m (m.add_locker ⟨locker_id, size, none⟩)
  | allocate (m : LockerManager) (st : LStrategy) (package : Package) :
      LStep m (receive_package st m package).1
  | release (m : LockerManager) (customer_id : String) :
      LStep m (m.retrieve_package customer_id).1

/-- States reachable from the initial empty manager by engine operations. -/
def LReachable (m : LockerManager) : Prop :=
  Relation.ReflTransGen LStep emptyManager m

/-- The owner-index consistency property of the specification, stated on the
locker engine: the customer dictionary points at a locker exactly when that
locker holds that customer's package.  (The dictionary stores the locker
object itself, so "maps o to u's id" is object identity, i.e. reference
equality.) -/
def lockerIndexConsistent (m : LockerManager) : Prop :=
  ∀ o r, r < m.heap.length →
    (m.lockers_by_customer o = some r ↔ occupantAt m r = some o)

/-- Soundness direction of the owner index: every dictionary entry points at
a locker occupied by that very customer. -/
def custSound (m : LockerManager) : Prop :=
  ∀ o r, m.lockers_by_customer o = some r → occupantAt m r = some o

/-! ## Process-wide singleton (`LockerManager.__new__` / `LockerController`)

`LockerManager._instance` is a class attribute: the first construction
creates the single instance, later constructions return it.  Every
`LockerController.__init__` stores the strategy and binds
`self.locker_manager = LockerManager()`, i.e. the one shared instance; a
controller is therefore represented by its strategy alone, and the shared
instance lives in the process state. -/

structure LockerProcess where
  shared_instance : Option LockerManager
  controllers : List LStrategy

/-- `LockerManager.__new__`: returns the instance and the updated class
attribute. -/
def LockerManager_new (i : Option LockerManager) : LockerManager × Option LockerManager :=
  match i with
  | none => (emptyManager, some emptyManager)
  | some m => (m, some m)

/-- `LockerController.__init__(allocation_strategy)`: the new controller is
identified by its position in `controllers`. -/
def new_controller (p : LockerProcess) (st : LStrategy) : LockerProcess × Nat :=
  let mi := LockerManager_new p.shared_instance
  ({ shared_instance := mi.2, controllers := p.controllers ++ [st] },
    p.controllers.length)

/-- `receive_package` invoked on the controller `cid`: runs against the
shared singleton with that controller's strategy. -/
def controller_receive (p : LockerProcess) (cid : Nat) (package : Package) :
    LockerProcess × Option Nat :=
  match p.controllers.get? cid, p.shared_instance with
  | some st, some m =>
    let mr := receive_package st m package
    ({ p with shared_instance := some mr.1 }, mr.2)
  | _, _ => (p, none)

/-- `retrieve_package` invoked on the controller `cid` (Python returns the
package or the string `"Package not found"`; rendered as `Option`). -/
def controller_retrieve (p : LockerProcess) (cid : Nat) (customer_id : String) :
    LockerProcess × Option Package :=
  match p.controllers.get? cid, p.shared_instance with
  | some _, some m =>
    let mr := m.retrieve_package customer_id
    ({ p with shared_instance := some mr.1 }, mr.2)
  | _, _ => (p, none)

/-! ## Concrete states used by witnesses and counterexamples -/

/-- One small locker provisioned, one package received. -/
def c1WitState : LockerManager :=
  (receive_package LStrategy.firstAvailable
    (emptyManager.add_locker ⟨"S0", PackageSize.SMALL, none⟩)
    ⟨PackageSize.SMALL, "c1"⟩).1

/-- Two small lockers provisioned, then the same customer receives two
packages with no retrieval in between. -/
def c1CexState : LockerManager :=
  (receive_package LStrategy.firstAvailable
    (receive_package LStrategy.firstAvailable
      ((emptyManager.add_locker ⟨"S0", PackageSize.SMALL, none⟩).add_locker
        ⟨"S1", PackageSize.SMALL, none⟩)
      ⟨PackageSize.SMALL, "dupCustomer"⟩).1
    ⟨PackageSize.SMALL, "dupCustomer"⟩).1

/-- Two compact spots on one level. -/
def c2Lot : List ParkingLevel :=
  add_parking_spot (add_parking_spot [] "L1" "A1" SpotSize.compact 10)
    "L1" "A2" SpotSize.compact 5

def c2Car : Vehicle := ⟨VehicleType.car, "DEF456"⟩

/-- The lot after the car has parked once. -/
def c2LotParked : List ParkingLevel :=
  (park_vehicle PStrategy.firstAvailable c2Lot c2Car).1

/-- A single medium locker, while the request is for a small package. -/
def c3CexManager : LockerManager :=
  emptyManager.add_locker ⟨"M0", PackageSize.MEDIUM, none⟩

def c3CexPackage : Package := ⟨PackageSize.SMALL, "c3cust"⟩

/-- A large spot first in declaration order, then a compact one: best fit
must prefer the compact spot for a car. -/
def c4Pool : List ParkingLevel :=
  [⟨"L1", [⟨"A1", SpotSize.large, 1, none⟩]⟩,
   ⟨"L2", [⟨"B1", SpotSize.compact, 9, none⟩]⟩]

def c4Car : Vehicle := ⟨VehicleType.car, "GHI789"⟩

/-- Cost metrics 10, 5, 15 spread over three containers. -/
def c5Pool : List ParkingLevel :=
  [⟨"L1", [⟨"u1", SpotSize.compact, 10, none⟩]⟩,
   ⟨"L2", [⟨"u2", SpotSize.compact, 5, none⟩]⟩,
   ⟨"L3", [⟨"u3", SpotSize.compact, 15, none⟩]⟩]

def c5Car : Vehicle := ⟨VehicleType.car, "JKL012"⟩

/-- A motorcycle-only spot first, then two compact spots. -/
def c6Pool : List ParkingLevel :=
  [⟨"L1", [⟨"M1", SpotSize.motorcycle, 1, none⟩, ⟨"C1", SpotSize.compact, 2, none⟩]⟩,
   ⟨"L2", [⟨"C2", SpotSize.compact, 3, none⟩]⟩]

def c6Car : Vehicle := ⟨VehicleType.car, "ABC123"⟩

/-- One small locker, for the round-trip witness. -/
def c8Manager : LockerManager :=
  emptyManager.add_locker ⟨"S0", PackageSize.SMALL, none⟩

def c8Package : Package := ⟨PackageSize.SMALL, "c8cust"⟩

/-- The state after `Allocate(req)` followed by `Release(req.ownerId)`. -/
def round_trip_state (st : LStrategy) (m : LockerManager) (package : Package) :
    LockerManager :=
  ((receive_package st m package).1.retrieve_package package.customer_id).1

/-- Provision spot id `A1` twice into the same level. -/
def c9Lot1 : List ParkingLevel := add_parking_spot [] "L1" "A1" SpotSize.compact 10

def c9Lot2 : List ParkingLevel := add_parking_spot c9Lot1 "L1" "A1" SpotSize.compact 12

/-- A process whose singleton already holds one free small locker and has no
controllers yet. -/
def c10Proc : LockerProcess :=
  { shared_instance := some (emptyManager.add_locker ⟨"S0", PackageSize.SMALL, none⟩)
    controllers := [] }

def c10Package : Package := ⟨PackageSize.SMALL, "c10cust"⟩

/-! # Theorems

## Generic list lemmas -/

theorem listModify_length (l : List α) (n : Nat) (f : α → α) :
    (listModify l n f).length = l.length := by
  induction l generalizing n with
  | nil => rfl
  | cons x xs ih =>
    cases n with
    | zero => rfl
    | succ m => simp [listModify, ih]

theorem get?_listModify (l : List α) (n : Nat) (f : α → α) (m : Nat) :
    (listModify l n f).get? m = if n = m then (l.get? m).map f else l.get? m := by
  induction l generalizing n m with
  | nil => simp [listModify]
  | cons x xs ih =>
    cases n with
    | zero =>
      cases m with
      | zero => simp [listModify]
      | succ k => simp [listModify]
    | succ n' =>
      cases m with
      | zero => simp [listModify]
      | succ k =>
        simpa [listModify, Nat.succ_eq_add_one] using ih n' k

theorem listModify_append_left (l₁ l₂ : List α) (n : Nat) (f : α → α)
    (h : n < l₁.length) :
    listModify (l₁ ++ l₂) n f = listModify l₁ n f ++ l₂ := by
  induction l₁ generalizing n with
  | nil => simp at h
  | cons x xs ih =>
    cases n with
    | zero => simp [listModify]
    | succ m =>
      simp only [List.cons_append, listModify, List.length_cons, List.append_eq] at *
      rw [ih m (by omega)]

theorem listModify_append_right (l₁ l₂ : List α) (n : Nat) (f : α → α)
    (h : l₁.length ≤ n) :
    listModify (l₁ ++ l₂) n f = l₁ ++ listModify l₂ (n - l₁.length) f := by
  induction l₁ generalizing n with
  | nil => simp
  | cons x xs ih =>
    cases n with
    | zero => simp at h
    | succ m =>
      simp only [List.cons_append, listModify, List.length_cons, List.append_eq] at *
      rw [ih m (by omega), show m + 1 - (xs.length + 1) = m - xs.length by omega]

theorem firstGo_eq_none_iff (p : α → Bool) (n : Nat) (l : List α) :
    firstGo p n l = none ↔ ∀ x ∈ l, p x = false := by
  induction l generalizing n with
  | nil => simp [firstGo]
  | cons x xs ih =>
    cases hp : p x with
    | true =>
      rw [firstGo, if_pos hp]
      constructor
      · intro h; cases h
      · intro h
        have hx := h x (List.mem_cons_self x xs)
        rw [hp] at hx; cases hx
    | false =>
      rw [firstGo, if_neg (by simp [hp])]
      simp [ih, hp]

theorem firstGo_eq_some (p : α → Bool) (n : Nat) (l : List α) (i : Nat)
    (h : firstGo p n l = some i) :
    n ≤ i ∧ ∃ x, l.get? (i - n) = some x ∧ p x = true ∧
      ∀ j y, j < i - n → l.get? j = some y → p y = false := by
  induction l generalizing n with
  | nil => cases h
  | cons x xs ih =>
    cases hp : p x with
    | true =>
      rw [firstGo, if_pos hp] at h
      have hn : n = i := by cases h; rfl
      subst hn
      refine ⟨Nat.le_refl n, x, by simp [Nat.sub_self], hp, ?_⟩
      intro j y hj _
      omega
    | false =>
      rw [firstGo, if_neg (by simp [hp])] at h
      obtain ⟨hle, y, hy, hpy, hfirst⟩ := ih (n + 1) h
      refine ⟨by omega, y, ?_, hpy, ?_⟩
      · have : i - n = (i - (n + 1)) + 1 := by omega
        rw [this]
        simpa using hy
      · intro j z hj hz
        cases j with
        | zero =>
          simp only [List.get?] at hz
          cases hz; exact hp
        | succ j' =>
          refine hfirst j' z (by omega) ?_
          simpa using hz

theorem firstGo_isSome (p : α → Bool) (n : Nat) (l : List α) (k : Nat) (x : α)
    (hk : l.get? k = some x) (hx : p x = true) : ∃ i, firstGo p n l = some i := by
  cases hres : firstGo p n l with
  | some i => exact ⟨i, rfl⟩
  | none =>
    have := (firstGo_eq_none_iff p n l).1 hres x (List.get?_mem hk)
    rw [hx] at this; cases this

/-! ## Running-best scan lemmas -/

theorem selMerge_none (mu : α → Nat) (r : Option (Nat × α)) :
    selMerge mu none r = r := by
  cases r <;> rfl

theorem selGo_ne_none (P : α → Bool) (mu : α → Nat) (n : Nat) (x : α) (xs : List α)
    (hp : P x = true) : selGo P mu n (x :: xs) ≠ none := by
  rw [selGo, if_pos hp]
  cases selGo P mu (n + 1) xs with
  | none => simp
  | some jb =>
    by_cases h : mu jb.2 < mu x
    · simp [h]
    · simp [h]

theorem selGo_eq_none_iff (P : α → Bool) (mu : α → Nat) (n : Nat) (l : List α) :
    selGo P mu n l = none ↔ ∀ x ∈ l, P x = false := by
  induction l generalizing n with
  | nil => simp [selGo]
  | cons x xs ih =>
    cases hp : P x with
    | true =>
      constructor
      · intro h; exact absurd h (selGo_ne_none P mu n x xs hp)
      · intro h
        have hx := h x (List.mem_cons_self x xs)
        rw [hp] at hx; cases hx
    | false =>
      rw [selGo, if_neg (by simp [hp])]
      simp [ih, hp]

theorem bestGo_eq_selMerge (P : α → Bool) (mu : α → Nat)
    (acc : Option (Nat × α)) (n : Nat) (l : List α) :
    bestGo P (fun x y => decide (mu x < mu y)) acc n l =
      selMerge mu acc (selGo P mu n l) := by
  induction l generalizing acc n with
  | nil => cases acc <;> rfl
  | cons x xs ih =>
    rw [bestGo, ih]
    cases hp : P x with
    | false =>
      rw [selGo, if_neg (by simp [hp])]
      simp [selStep, hp]
    | true =>
      rw [selGo, if_pos hp]
      cases acc with
      | none =>
        cases hgo : selGo P mu (n + 1) xs with
        | none => simp [selStep, selMerge, hp]
        | some jb =>
          simp only [selStep, selMerge, hp, if_true, decide_eq_true_eq]
          all_goals try split_ifs
          all_goals dsimp only
          all_goals try split_ifs
          all_goals first | rfl | omega
      | some a =>
        cases hgo : selGo P mu (n + 1) xs with
        | none =>
          simp only [selStep, selMerge, hp, if_true, decide_eq_true_eq]
          all_goals try split_ifs
          all_goals dsimp only
          all_goals try split_ifs
          all_goals first | rfl | omega
        | some jb =>
          simp only [selStep, selMerge, hp, if_true, decide_eq_true_eq]
          all_goals try split_ifs
          all_goals dsimp only
          all_goals try split_ifs
          all_goals first | rfl | omega

theorem selGo_spec (P : α → Bool) (mu : α → Nat) (n : Nat) (l : List α)
    (j : Nat) (b : α) (h : selGo P mu n l = some (j, b)) :
    n ≤ j ∧ l.get? (j - n) = some b ∧ P b = true ∧
      ∀ k y, l.get? k = some y → P y = true →
        mu b ≤ mu y ∧ (n + k < j → mu b < mu y) := by
  induction l generalizing n j b with
  | nil => cases h
  | cons x xs ih =>
    cases hp : P x with
    | false =>
      rw [selGo, if_neg (by simp [hp])] at h
      obtain ⟨hle, hget, hpb, hmin⟩ := ih (n + 1) j b h
      refine ⟨by omega, ?_, hpb, ?_⟩
      · rw [show j - n = (j - (n + 1)) + 1 by omega]
        simpa using hget
      · intro k y hk hy
        cases k with
        | zero =>
          simp only [List.get?] at hk
          cases hk
          rw [hp] at hy; cases hy
        | succ k' =>
          have hky := hmin k' y (by simpa using hk) hy
          exact ⟨hky.1, fun hlt => hky.2 (by omega)⟩
    | true =>
      rw [selGo, if_pos hp] at h
      cases hgo : selGo P mu (n + 1) xs with
      | none =>
        rw [hgo] at h
        simp only [Option.some.injEq, Prod.mk.injEq] at h
        obtain ⟨rfl, rfl⟩ := h
        refine ⟨Nat.le_refl _, by simp, hp, ?_⟩
        intro k y hk hy
        cases k with
        | zero =>
          simp only [List.get?] at hk
          cases hk
          exact ⟨Nat.le_refl _, fun hlt => absurd hlt (by omega)⟩
        | succ k' =>
          have hmem := List.get?_mem (l := xs) (n := k') (by simpa using hk)
          have hall := (selGo_eq_none_iff P mu (n + 1) xs).1 hgo y hmem
          rw [hy] at hall; cases hall
      | some jb =>
        obtain ⟨j', b'⟩ := jb
        rw [hgo] at h
        replace h : (if mu b' < mu x then some (j', b') else some (n, x) :
            Option (Nat × α)) = some (j, b) := h
        obtain ⟨hle', hget', hpb', hmin'⟩ := ih (n + 1) j' b' hgo
        by_cases hcmp : mu b' < mu x
        · rw [if_pos hcmp] at h
          simp only [Option.some.injEq, Prod.mk.injEq] at h
          obtain ⟨rfl, rfl⟩ := h
          refine ⟨by omega, ?_, hpb', ?_⟩
          · rw [show j' - n = (j' - (n + 1)) + 1 by omega]
            simpa using hget'
          · intro k y hk hy
            cases k with
            | zero =>
              simp only [List.get?] at hk
              cases hk
              exact ⟨Nat.le_of_lt hcmp, fun _ => hcmp⟩
            | succ k' =>
              have hky := hmin' k' y (by simpa using hk) hy
              exact ⟨hky.1, fun hlt => hky.2 (by omega)⟩
        · rw [if_neg hcmp] at h
          simp only [Option.some.injEq, Prod.mk.injEq] at h
          obtain ⟨rfl, rfl⟩ := h
          refine ⟨Nat.le_refl _, by simp, hp, ?_⟩
          intro k y hk hy
          cases k with
          | zero =>
            simp only [List.get?] at hk
            cases hk
            exact ⟨Nat.le_refl _, fun hlt => absurd hlt (by omega)⟩
          | succ k' =>
            have hky := hmin' k' y (by simpa using hk) hy
            have hxb' : mu x ≤ mu b' := Nat.le_of_not_lt hcmp
            exact ⟨Nat.le_trans hxb' hky.1, fun hlt => absurd hlt (by omega)⟩

theorem bestFit_find_spot_eq_selGo (v : Vehicle) (levels : List ParkingLevel) :
    bestFit_find_spot v levels =
      (selGo (fun s => s.is_available && bestFit_can_fit v s)
        (fun s => bestFit_size_priority s.size) 0 (allSpots levels)).map Prod.fst := by
  rw [bestFit_find_spot]
  rw [show (bestFit_is_better_spot : ParkingSpot → ParkingSpot → Bool) =
      (fun x y => decide ((fun s => bestFit_size_priority s.size) x <
        (fun s => bestFit_size_priority s.size) y)) from rfl]
  rw [bestGo_eq_selMerge, selMerge_none]

theorem closest_find_spot_eq_selGo (v : Vehicle) (levels : List ParkingLevel) :
    closestToEntrance_find_spot v levels =
      (selGo (fun s => s.is_available && closest_can_fit v s)
        (fun s => s.distance_to_entrance) 0 (allSpots levels)).map Prod.fst := by
  rw [closestToEntrance_find_spot]
  rw [show (closest_is_closer_spot : ParkingSpot → ParkingSpot → Bool) =
      (fun x y => decide ((fun s : ParkingSpot => s.distance_to_entrance) x <
        (fun s : ParkingSpot => s.distance_to_entrance) y)) from rfl]
  rw [bestGo_eq_selMerge, selMerge_none]

theorem allSpots_setSpotAt (levels : List ParkingLevel) (n : Nat)
    (f : ParkingSpot → ParkingSpot) :
    allSpots (setSpotAt levels n f) = listModify (allSpots levels) n f := by
  induction levels generalizing n with
  | nil => rfl
  | cons l rest ih =>
    rw [setSpotAt]
    by_cases h : n < l.spots.length
    · rw [if_pos h]
      simp only [allSpots]
      rw [listModify_append_left _ _ _ _ h]
    · rw [if_neg h]
      simp only [allSpots]
      rw [ih, listModify_append_right _ _ _ _ (Nat.le_of_not_lt h)]

/-! ## Locker manager lemmas -/

theorem head?_eq_some_mem {l : List β} {a : β} (h : l.head? = some a) : a ∈ l := by
  cases l with
  | nil => cases h
  | cons x xs =>
    have hx : x = a := by
      simp only [List.head?] at h
      exact Option.some.inj h
    rw [← hx]
    exact List.mem_cons_self x xs

theorem availAt_spec (m : LockerManager) (r : Nat) (h : availAt m r = true) :
    ∃ lk, m.heap.get? r = some lk ∧ lk.package = none := by
  rw [availAt] at h
  cases hg : m.heap.get? r with
  | none => rw [hg] at h; cases h
  | some lk =>
    rw [hg] at h
    refine ⟨lk, rfl, ?_⟩
    simpa [Locker.is_available] using h

theorem add_locker_heap (m : LockerManager) (lk : Locker) :
    (m.add_locker lk).heap = m.heap ++ [lk] := rfl

theorem add_locker_cust (m : LockerManager) (lk : Locker) :
    (m.add_locker lk).lockers_by_customer = m.lockers_by_customer := rfl

theorem store_package_heap (m : LockerManager) (r : Nat) (package : Package) :
    (m.store_package r package).heap =
      listModify m.heap r (fun lk => { lk with package := some package }) := rfl

theorem store_package_cust (m : LockerManager) (r : Nat) (package : Package) :
    (m.store_package r package).lockers_by_customer =
      fun c => if c = package.customer_id then some r else m.lockers_by_customer c := rfl

theorem retrieve_package_none (m : LockerManager) (c : String)
    (h : m.lockers_by_customer c = none) : m.retrieve_package c = (m, none) := by
  simp only [LockerManager.retrieve_package, h]

theorem retrieve_package_some_fst (m : LockerManager) (c : String) (r : Nat)
    (h : m.lockers_by_customer c = some r) :
    (m.retrieve_package c).1 =
      { m with
        heap := listModify m.heap r (fun lk => { lk with package := none })
        lockers_by_customer := fun c' => if c' = c then none else m.lockers_by_customer c' } := by
  simp only [LockerManager.retrieve_package, h]

theorem retrieve_package_some_snd (m : LockerManager) (c : String) (r : Nat)
    (h : m.lockers_by_customer c = some r) :
    (m.retrieve_package c).2 = (m.heap.get? r).bind (fun lk => lk.package) := by
  simp only [LockerManager.retrieve_package, h]

theorem find_available_locker_fst (m : LockerManager) (size : PackageSize) :
    (m.find_available_locker size).1 =
      { m with lockers_by_size := bsEnsure m.lockers_by_size size } := rfl

theorem find_available_locker_avail (m : LockerManager) (size : PackageSize) (r : Nat)
    (h : (m.find_available_locker size).2 = some r) : availAt m r = true := by
  have h' : ((bsGet (bsEnsure m.lockers_by_size size) size).filter
      (fun x => availAt m x)).head? = some r := h
  have hmem := head?_eq_some_mem h'
  exact (List.mem_filter.1 hmem).2

theorem allocate_locker_fst_heap (st : LStrategy) (m : LockerManager) (package : Package) :
    (allocate_locker st m package).1.heap = m.heap := by
  cases st with
  | firstAvailable => rfl
  | mostAvailable =>
    rw [allocate_locker]
    split <;> rfl

theorem allocate_locker_fst_cust (st : LStrategy) (m : LockerManager) (package : Package) :
    (allocate_locker st m package).1.lockers_by_customer = m.lockers_by_customer := by
  cases st with
  | firstAvailable => rfl
  | mostAvailable =>
    rw [allocate_locker]
    split <;> rfl

theorem allocate_locker_avail (st : LStrategy) (m : LockerManager) (package : Package)
    (r : Nat) (h : (allocate_locker st m package).2 = some r) : availAt m r = true := by
  cases st with
  | firstAvailable => exact find_available_locker_avail m package.size r h
  | mostAvailable =>
    rw [allocate_locker] at h
    split at h
    · exact find_available_locker_avail m _ r h
    · cases h

/-! ## Owner-index soundness is preserved by every engine operation -/

theorem custSound_empty : custSound emptyManager := by
  intro o r h
  cases h

theorem occupantAt_congr_heap (m m' : LockerManager) (hh : m'.heap = m.heap) (r : Nat) :
    occupantAt m' r = occupantAt m r := by
  rw [occupantAt, occupantAt, hh]

theorem occupantAt_mk (heap : List Locker) (bs : List (PackageSize × List Nat))
    (bc : String → Option Nat) (r : Nat) :
    occupantAt ⟨heap, bs, bc⟩ r =
      ((heap.get? r).bind (fun lk => lk.package)).map Package.customer_id := rfl

theorem custSound_congr (m m' : LockerManager) (hh : m'.heap = m.heap)
    (hc : m'.lockers_by_customer = m.lockers_by_customer)
    (h : custSound m) : custSound m' := by
  intro o r hr
  rw [hc] at hr
  rw [occupantAt_congr_heap m m' hh]
  exact h o r hr

theorem custSound_add_locker (m : LockerManager) (lk : Locker)
    (h : custSound m) : custSound (m.add_locker lk) := by
  intro o r hr
  rw [add_locker_cust] at hr
  have hor := h o r hr
  rw [occupantAt] at hor ⊢
  rw [add_locker_heap]
  cases hg : m.heap.get? r with
  | none => rw [hg] at hor; cases hor
  | some lkr =>
    rw [hg] at hor
    have hlt : r < m.heap.length := by
      by_contra hge
      rw [List.get?_eq_none.2 (Nat.le_of_not_lt hge)] at hg
      cases hg
    rw [List.get?_append hlt, hg]
    exact hor

theorem custSound_store (m : LockerManager) (r : Nat) (package : Package)
    (h : custSound m) (hfree : availAt m r = true) :
    custSound (m.store_package r package) := by
  obtain ⟨lk, hg, hpkg⟩ := availAt_spec m r hfree
  intro o r' hr'
  simp only [store_package_cust] at hr'
  by_cases ho : o = package.customer_id
  · rw [if_pos ho] at hr'
    cases hr'
    rw [occupantAt, store_package_heap, get?_listModify, if_pos rfl, hg]
    simp [ho]
  · rw [if_neg ho] at hr'
    have hor := h o r' hr'
    have hne : r ≠ r' := by
      intro e
      subst e
      rw [occupantAt, hg] at hor
      simp [hpkg] at hor
    rw [occupantAt, store_package_heap, get?_listModify, if_neg hne]
    exact hor

theorem custSound_retrieve (m : LockerManager) (c : String) (h : custSound m) :
    custSound (m.retrieve_package c).1 := by
  cases hc : m.lockers_by_customer c with
  | none => rw [retrieve_package_none m c hc]; exact h
  | some r =>
    rw [retrieve_package_some_fst m c r hc]
    intro o r' hr'
    simp only at hr'
    by_cases ho : o = c
    · rw [if_pos ho] at hr'
      cases hr'
    · rw [if_neg ho] at hr'
      have hor := h o r' hr'
      have hcr := h c r hc
      have hne : r ≠ r' := by
        intro e
        apply ho
        have h1 := hcr
        rw [e, hor] at h1
        exact Option.some.inj h1
      rw [occupantAt_mk, get?_listModify, if_neg hne]
      rw [occupantAt] at hor
      exact hor

theorem LReachable_custSound (m : LockerManager) (h : LReachable m) : custSound m := by
  have h' : Relation.ReflTransGen LStep emptyManager m := h
  clear h
  induction h' with
  | refl => exact custSound_empty
  | @tail b c hab hstep ih =>
    cases hstep with
    | provision lid sz => exact custSound_add_locker b _ ih
    | allocate st package =>
      cases halloc : allocate_locker st b package with
      | mk m1 ro =>
        have hh : m1.heap = b.heap := by
          rw [← allocate_locker_fst_heap st b package, halloc]
        have hc : m1.lockers_by_customer = b.lockers_by_customer := by
          rw [← allocate_locker_fst_cust st b package, halloc]
        cases ro with
        | none =>
          have hrec : (receive_package st b package).1 = m1 := by
            simp only [receive_package, halloc]
          rw [hrec]
          exact custSound_congr b m1 hh hc ih
        | some r =>
          have hrec : (receive_package st b package).1 = m1.store_package r package := by
            simp only [receive_package, halloc]
          rw [hrec]
          have hav : availAt b r = true := by
            apply allocate_locker_avail st b package
            rw [halloc]
          have hav1 : availAt m1 r = true := by
            rw [availAt, hh]
            rw [availAt] at hav
            exact hav
          exact custSound_store m1 r package (custSound_congr b m1 hh hc ih) hav1
    | release cust => exact custSound_retrieve b cust ih

/-! ## Bool helper -/

theorem bool_and_eq_false_iff (a b : Bool) :
    (a && b) = false ↔ ¬(a = true ∧ b = true) := by
  cases a <;> cases b <;> simp

/-! ## Claim theorems -/

/-- C7: the compatibility predicate is one pure total rule set shared by all
three strategies: a motorcycle (two-wheeled kind) fits every capacity class,
a car (four-wheeled kind) fits exactly the compact and large classes — in
particular not a motorcycle-class spot — and all three strategies' `_can_fit`
methods agree on every input. -/
theorem c7_compatibility_predicate (v : Vehicle) (s : ParkingSpot)
    (p sid : String) (d : Nat) (veh : Option Vehicle) :
    bestFit_can_fit v s = firstAvailable_can_fit v s ∧
    closest_can_fit v s = firstAvailable_can_fit v s ∧
    firstAvailable_can_fit ⟨VehicleType.motorcycle, p⟩ s = true ∧
    firstAvailable_can_fit ⟨VehicleType.car, p⟩ s =
      (s.size == SpotSize.compact || s.size == SpotSize.large) ∧
    firstAvailable_can_fit ⟨VehicleType.car, p⟩ ⟨sid, SpotSize.motorcycle, d, veh⟩ = false :=
  ⟨rfl, rfl, rfl, rfl, rfl⟩

/-- C4: whenever some free compatible spot exists, the best-fit strategy
returns a free compatible spot of minimal `size_priority`
(motorcycle = 0 < compact = 1 < large = 2), and among the spots of that
minimal priority the one earliest in container/spot declaration order. -/
theorem c4_bestFit_selection (v : Vehicle) (levels : List ParkingLevel) (k : Nat)
    (t : ParkingSpot) (hk : (allSpots levels).get? k = some t)
    (hta : t.is_available = true) (htf : bestFit_can_fit v t = true) :
    ∃ i s, bestFit_find_spot v levels = some i ∧ (allSpots levels).get? i = some s ∧
      s.is_available = true ∧ bestFit_can_fit v s = true ∧
      ∀ j u, (allSpots levels).get? j = some u → u.is_available = true →
        bestFit_can_fit v u = true →
        bestFit_size_priority s.size ≤ bestFit_size_priority u.size ∧
        (j < i → bestFit_size_priority s.size < bestFit_size_priority u.size) := by
  rw [bestFit_find_spot_eq_selGo]
  cases hgo : selGo (fun s => s.is_available && bestFit_can_fit v s)
      (fun s => bestFit_size_priority s.size) 0 (allSpots levels) with
  | none =>
    have hall := (selGo_eq_none_iff _ _ 0 (allSpots levels)).1 hgo t (List.get?_mem hk)
    simp [hta, htf] at hall
  | some jb =>
    obtain ⟨j, b⟩ := jb
    obtain ⟨hle, hget, hpb, hmin⟩ := selGo_spec _ _ 0 (allSpots levels) j b hgo
    rw [Nat.sub_zero] at hget
    have hb : b.is_available = true ∧ bestFit_can_fit v b = true := by simpa using hpb
    refine ⟨j, b, rfl, hget, hb.1, hb.2, ?_⟩
    intro j' u hj' hu hf
    have hall := hmin j' u hj' (by simp [hu, hf])
    exact ⟨hall.1, fun hlt => hall.2 (by omega)⟩

/-- C4 witness: in a pool with a free large spot declared before a free
compact spot, best fit gives a car the compact spot. -/
theorem c4_bestFit_selection_witness :
    (allSpots c4Pool).get? 1 = some ⟨"B1", SpotSize.compact, 9, none⟩ ∧
    (∃ i s, bestFit_find_spot c4Car c4Pool = some i ∧
      (allSpots c4Pool).get? i = some s ∧
      s.is_available = true ∧ bestFit_can_fit c4Car s = true ∧
      ∀ j u, (allSpots c4Pool).get? j = some u → u.is_available = true →
        bestFit_can_fit c4Car u = true →
        bestFit_size_priority s.size ≤ bestFit_size_priority u.size ∧
        (j < i → bestFit_size_priority s.size < bestFit_size_priority u.size)) :=
  ⟨rfl, c4_bestFit_selection c4Car c4Pool 1 ⟨"B1", SpotSize.compact, 9, none⟩ rfl rfl rfl⟩

/-- C5: whenever some free compatible spot exists, the closest-to-entrance
strategy returns a free compatible spot of minimal `distance_to_entrance`,
ties broken by declaration order; in particular with cost metrics
`[10, 5, 15]` in three containers it picks the spot with metric `5`. -/
theorem c5_closest_selection :
    (∀ (v : Vehicle) (levels : List ParkingLevel) (k : Nat) (t : ParkingSpot),
      (allSpots levels).get? k = some t → t.is_available = true →
      closest_can_fit v t = true →
      ∃ i s, closestToEntrance_find_spot v levels = some i ∧
        (allSpots levels).get? i = some s ∧ s.is_available = true ∧
        closest_can_fit v s = true ∧
        ∀ j u, (allSpots levels).get? j = some u → u.is_available = true →
          closest_can_fit v u = true →
          s.distance_to_entrance ≤ u.distance_to_entrance ∧
          (j < i → s.distance_to_entrance < u.distance_to_entrance)) ∧
    (closestToEntrance_find_spot c5Car c5Pool = some 1 ∧
      ((allSpots c5Pool).get? 1).map ParkingSpot.distance_to_entrance = some 5) := by
  constructor
  · intro v levels k t hk hta htf
    rw [closest_find_spot_eq_selGo]
    cases hgo : selGo (fun s => s.is_available && closest_can_fit v s)
        (fun s => s.distance_to_entrance) 0 (allSpots levels) with
    | none =>
      have hall := (selGo_eq_none_iff _ _ 0 (allSpots levels)).1 hgo t (List.get?_mem hk)
      simp [hta, htf] at hall
    | some jb =>
      obtain ⟨j, b⟩ := jb
      obtain ⟨hle, hget, hpb, hmin⟩ := selGo_spec _ _ 0 (allSpots levels) j b hgo
      rw [Nat.sub_zero] at hget
      have hb : b.is_available = true ∧ closest_can_fit v b = true := by simpa using hpb
      refine ⟨j, b, rfl, hget, hb.1, hb.2, ?_⟩
      intro j' u hj' hu hf
      have hall := hmin j' u hj' (by simp [hu, hf])
      exact ⟨hall.1, fun hlt => hall.2 (by omega)⟩
  · exact ⟨rfl, rfl⟩

/-- C5 witness: the general minimality statement applied to the
`[10, 5, 15]` pool. -/
theorem c5_closest_selection_witness :
    (allSpots c5Pool).get? 1 = some ⟨"u2", SpotSize.compact, 5, none⟩ ∧
    (∃ i s, closestToEntrance_find_spot c5Car c5Pool = some i ∧
      (allSpots c5Pool).get? i = some s ∧ s.is_available = true ∧
      closest_can_fit c5Car s = true ∧
      ∀ j u, (allSpots c5Pool).get? j = some u → u.is_available = true →
        closest_can_fit c5Car u = true →
        s.distance_to_entrance ≤ u.distance_to_entrance ∧
        (j < i → s.distance_to_entrance < u.distance_to_entrance)) :=
  ⟨rfl, c5_closest_selection.1 c5Car c5Pool 1 ⟨"u2", SpotSize.compact, 5, none⟩ rfl rfl rfl⟩

/-- C6: the first-match strategy returns the first free compatible spot in
container/spot declaration order, and consecutive allocations with the same
vehicle kind move strictly forward in declaration order: after parking the
found spot, the next first-match search returns a strictly later index. -/
theorem c6_firstMatch_order (v : Vehicle) (levels : List ParkingLevel) (i : Nat)
    (h : firstAvailable_find_spot v levels = some i) :
    (∃ s, (allSpots levels).get? i = some s ∧ s.is_available = true ∧
      firstAvailable_can_fit v s = true ∧
      ∀ j u, j < i → (allSpots levels).get? j = some u →
        ¬(u.is_available = true ∧ firstAvailable_can_fit v u = true)) ∧
    (∀ i', firstAvailable_find_spot v
        (park_vehicle PStrategy.firstAvailable levels v).1 = some i' → i < i') := by
  obtain ⟨-, s, hget, hp, hfirst⟩ := firstGo_eq_some _ 0 _ i h
  rw [Nat.sub_zero] at hget
  have hs : s.is_available = true ∧ firstAvailable_can_fit v s = true := by simpa using hp
  have hfirst0 : ∀ j u, j < i → (allSpots levels).get? j = some u →
      ¬(u.is_available = true ∧ firstAvailable_can_fit v u = true) := by
    intro j u hj hu hcon
    have hfalse := hfirst j u (by omega) hu
    simp [hcon.1, hcon.2] at hfalse
  refine ⟨⟨s, hget, hs.1, hs.2, hfirst0⟩, ?_⟩
  intro i' h'
  have hpark : (park_vehicle PStrategy.firstAvailable levels v).1 =
      setSpotAt levels i (fun s0 => { s0 with vehicle := some v }) := by
    simp only [park_vehicle, find_spot, h]
  rw [hpark] at h'
  have h'' : firstGo (fun s0 => s0.is_available && firstAvailable_can_fit v s0) 0
      (listModify (allSpots levels) i (fun s0 => { s0 with vehicle := some v })) =
      some i' := by
    rw [← allSpots_setSpotAt]
    exact h'
  obtain ⟨-, s', hget', hp', hfirst'⟩ := firstGo_eq_some _ 0 _ i' h''
  rw [Nat.sub_zero] at hget'
  by_contra hnlt
  rcases Nat.lt_or_ge i' i with hlt | hge
  · rw [get?_listModify, if_neg (by omega)] at hget'
    have hs' : s'.is_available = true ∧ firstAvailable_can_fit v s' = true := by
      simpa using hp'
    exact hfirst0 i' s' hlt hget' hs'
  · have heq : i' = i := by omega
    subst heq
    rw [get?_listModify, if_pos rfl, hget] at hget'
    simp only [Option.map_some'] at hget'
    have hs'eq := Option.some.inj hget'
    rw [← hs'eq] at hp'
    simp [ParkingSpot.is_available] at hp'

/-- C6 witness: a car in a pool whose first spot is motorcycle-only is
assigned the second spot; after parking there, the next search returns a
strictly later spot. -/
theorem c6_firstMatch_order_witness :
    firstAvailable_find_spot c6Car c6Pool = some 1 ∧
    ((∃ s, (allSpots c6Pool).get? 1 = some s ∧ s.is_available = true ∧
      firstAvailable_can_fit c6Car s = true ∧
      ∀ j u, j < 1 → (allSpots c6Pool).get? j = some u →
        ¬(u.is_available = true ∧ firstAvailable_can_fit c6Car u = true)) ∧
    (∀ i', firstAvailable_find_spot c6Car
        (park_vehicle PStrategy.firstAvailable c6Pool c6Car).1 = some i' → 1 < i')) :=
  ⟨rfl, c6_firstMatch_order c6Car c6Pool 1 rfl⟩

/-- C3 (amended): for the three specified strategy variants — first-match,
best-fit and closest-to-entrance — a returned spot is always free and
compatible, and `none` is returned exactly when no free compatible spot
exists anywhere in the pool.  (The claim as frozen also covers the locker
file's most-available variant, which violates it; see the counterexample.) -/
theorem c3_strategy_sound_and_complete (st : PStrategy) (v : Vehicle)
    (levels : List ParkingLevel) :
    (∀ i, find_spot st v levels = some i →
      ∃ s, (allSpots levels).get? i = some s ∧ s.is_available = true ∧
        firstAvailable_can_fit v s = true) ∧
    (find_spot st v levels = none ↔
      ∀ s ∈ allSpots levels, ¬(s.is_available = true ∧ firstAvailable_can_fit v s = true)) := by
  have hcanBF : ∀ s, bestFit_can_fit v s = firstAvailable_can_fit v s := fun s => rfl
  have hcanCL : ∀ s, closest_can_fit v s = firstAvailable_can_fit v s := fun s => rfl
  cases st with
  | firstAvailable =>
    constructor
    · intro i h
      obtain ⟨-, s, hget, hp, -⟩ := firstGo_eq_some _ 0 _ i h
      rw [Nat.sub_zero] at hget
      have hs : s.is_available = true ∧ firstAvailable_can_fit v s = true := by simpa using hp
      exact ⟨s, hget, hs.1, hs.2⟩
    · constructor
      · intro h s hs hcon
        have hfalse := (firstGo_eq_none_iff _ 0 (allSpots levels)).1 h s hs
        simp [hcon.1, hcon.2] at hfalse
      · intro h
        apply (firstGo_eq_none_iff _ 0 (allSpots levels)).2
        intro s hs
        rw [bool_and_eq_false_iff]
        exact h s hs
  | bestFit =>
    constructor
    · intro i h
      rw [show find_spot PStrategy.bestFit v levels = bestFit_find_spot v levels from rfl,
        bestFit_find_spot_eq_selGo] at h
      obtain ⟨⟨j, b⟩, hgo, hj⟩ := Option.map_eq_some'.1 h
      obtain ⟨-, hget, hpb, -⟩ := selGo_spec _ _ 0 _ j b hgo
      rw [Nat.sub_zero] at hget
      have hb : b.is_available = true ∧ bestFit_can_fit v b = true := by simpa using hpb
      cases hj
      exact ⟨b, hget, hb.1, (hcanBF b) ▸ hb.2⟩
    · rw [show find_spot PStrategy.bestFit v levels = bestFit_find_spot v levels from rfl,
        bestFit_find_spot_eq_selGo, Option.map_eq_none', selGo_eq_none_iff]
      constructor
      · intro h s hs hcon
        have hfalse := h s hs
        simp [hcon.1, hcanBF s, hcon.2] at hfalse
      · intro h s hs
        rw [bool_and_eq_false_iff]
        intro hcon
        exact h s hs ⟨hcon.1, (hcanBF s) ▸ hcon.2⟩
  | closestToEntrance =>
    constructor
    · intro i h
      rw [show find_spot PStrategy.closestToEntrance v levels =
        closestToEntrance_find_spot v levels from rfl,
        closest_find_spot_eq_selGo] at h
      obtain ⟨⟨j, b⟩, hgo, hj⟩ := Option.map_eq_some'.1 h
      obtain ⟨-, hget, hpb, -⟩ := selGo_spec _ _ 0 _ j b hgo
      rw [Nat.sub_zero] at hget
      have hb : b.is_available = true ∧ closest_can_fit v b = true := by simpa using hpb
      cases hj
      exact ⟨b, hget, hb.1, (hcanCL b) ▸ hb.2⟩
    · rw [show find_spot PStrategy.closestToEntrance v levels =
        closestToEntrance_find_spot v levels from rfl,
        closest_find_spot_eq_selGo, Option.map_eq_none', selGo_eq_none_iff]
      constructor
      · intro h s hs hcon
        have hfalse := h s hs
        simp [hcon.1, hcanCL s, hcon.2] at hfalse
      · intro h s hs
        rw [bool_and_eq_false_iff]
        intro hcon
        exact h s hs ⟨hcon.1, (hcanCL s) ▸ hcon.2⟩

/-- C3 witness: best fit on a concrete pool returns spot index 1, which is
free and compatible. -/
theorem c3_strategy_witness :
    find_spot PStrategy.bestFit c4Car c4Pool = some 1 ∧
    (∃ s, (allSpots c4Pool).get? 1 = some s ∧ s.is_available = true ∧
      firstAvailable_can_fit c4Car s = true) :=
  ⟨rfl, (c3_strategy_sound_and_complete PStrategy.bestFit c4Car c4Pool).1 1 rfl⟩

/-- C3 counterexample: the locker file's most-available strategy returns a
free MEDIUM locker for a SMALL-package request although the pool (one MEDIUM
locker, nothing else) has no free compatible (same-size) unit at all, so the
claim's soundness and completeness both fail for that strategy variant. -/
theorem c3_counterexample :
    (allocate_locker LStrategy.mostAvailable c3CexManager c3CexPackage).2 = some 0 ∧
    sizeAt c3CexManager 0 = some PackageSize.MEDIUM ∧
    c3CexPackage.size = PackageSize.SMALL ∧
    availAt c3CexManager 0 = true ∧
    c3CexManager.heap.length = 1 ∧
    ¬sizeAt c3CexManager 0 = some c3CexPackage.size :=
  ⟨rfl, rfl, rfl, rfl, rfl, by decide⟩

/-- C2 (amended): the engine performs no duplicate-owner check: a second
`park_vehicle` call for a vehicle that already occupies a spot is processed
like any fresh request — whenever a free compatible spot remains it succeeds
and the owner ends up occupying two spots simultaneously. -/
theorem c2_second_allocate_succeeds (levels : List ParkingLevel) (v : Vehicle)
    (j k : Nat) (s t : ParkingSpot)
    (hj : (allSpots levels).get? j = some s) (hjv : s.vehicle = some v)
    (hk : (allSpots levels).get? k = some t) (hta : t.is_available = true)
    (htf : firstAvailable_can_fit v t = true) :
    ∃ i, (park_vehicle PStrategy.firstAvailable levels v).2 = some i ∧ i ≠ j ∧
      spotVehicleAt (park_vehicle PStrategy.firstAvailable levels v).1 i = some v ∧
      spotVehicleAt (park_vehicle PStrategy.firstAvailable levels v).1 j = some v := by
  obtain ⟨i, hfind⟩ := firstGo_isSome
    (fun s0 => s0.is_available && firstAvailable_can_fit v s0) 0 (allSpots levels)
    k t hk (by simp [hta, htf])
  have hfind' : firstAvailable_find_spot v levels = some i := hfind
  obtain ⟨-, x, hget, hp, -⟩ := firstGo_eq_some _ 0 _ i hfind
  rw [Nat.sub_zero] at hget
  have hx : x.is_available = true ∧ firstAvailable_can_fit v x = true := by simpa using hp
  have hpark1 : (park_vehicle PStrategy.firstAvailable levels v).1 =
      setSpotAt levels i (fun s0 => { s0 with vehicle := some v }) := by
    simp only [park_vehicle, find_spot, hfind']
  have hpark2 : (park_vehicle PStrategy.firstAvailable levels v).2 = some i := by
    simp only [park_vehicle, find_spot, hfind']
  have hne : i ≠ j := by
    intro e
    rw [e, hj] at hget
    have hxs := Option.some.inj hget
    have hav := hx.1
    rw [← hxs] at hav
    rw [ParkingSpot.is_available, hjv] at hav
    simp at hav
  refine ⟨i, hpark2, hne, ?_, ?_⟩
  · rw [hpark1, spotVehicleAt, allSpots_setSpotAt, get?_listModify, if_pos rfl, hget]
    rfl
  · rw [hpark1, spotVehicleAt, allSpots_setSpotAt, get?_listModify, if_neg hne, hj]
    simpa using hjv

/-- C2 witness: with one compact spot already held by the car and another
compact spot free, the second `park_vehicle` call for the same car succeeds
and the car holds both spots. -/
theorem c2_second_allocate_succeeds_witness :
    (allSpots c2LotParked).get? 0 = some ⟨"A1", SpotSize.compact, 10, some c2Car⟩ ∧
    (∃ i, (park_vehicle PStrategy.firstAvailable c2LotParked c2Car).2 = some i ∧ i ≠ 0 ∧
      spotVehicleAt (park_vehicle PStrategy.firstAvailable c2LotParked c2Car).1 i = some c2Car ∧
      spotVehicleAt (park_vehicle PStrategy.firstAvailable c2LotParked c2Car).1 0 = some c2Car) :=
  ⟨rfl, c2_second_allocate_succeeds c2LotParked c2Car 0 1
    ⟨"A1", SpotSize.compact, 10, some c2Car⟩ ⟨"A2", SpotSize.compact, 5, none⟩
    rfl rfl rfl rfl rfl⟩

/-- C2 counterexample: the same car parks twice with no unpark in between;
the second call does not fail with any duplicate-owner error — it returns
spot index 1 while the car still occupies spot index 0. -/
theorem c2_counterexample :
    spotVehicleAt c2LotParked 0 = some c2Car ∧
    (park_vehicle PStrategy.firstAvailable c2LotParked c2Car).2 = some 1 ∧
    spotVehicleAt (park_vehicle PStrategy.firstAvailable c2LotParked c2Car).1 0 = some c2Car ∧
    spotVehicleAt (park_vehicle PStrategy.firstAvailable c2LotParked c2Car).1 1 = some c2Car :=
  ⟨rfl, rfl, rfl, rfl⟩

/-- C1 (amended): in every state reachable from the empty engine by
Provision / Allocate / Release, the Owner Index is sound — whenever the
customer dictionary maps owner `o` to locker reference `r`, that locker
exists and currently holds a package whose `customer_id` is `o`.  (The full
iff of the claim fails in reachable states because Allocate performs no
duplicate-owner check; see the counterexample.) -/
theorem c1_owner_index_sound (m : LockerManager) (h : LReachable m)
    (o : String) (r : Nat) (hr : m.lockers_by_customer o = some r) :
    r < m.heap.length ∧ occupantAt m r = some o := by
  have hocc := LReachable_custSound m h o r hr
  refine ⟨?_, hocc⟩
  rw [occupantAt] at hocc
  cases hg : m.heap.get? r with
  | none => rw [hg] at hocc; cases hocc
  | some lk =>
    by_contra hge
    rw [List.get?_eq_none.2 (Nat.le_of_not_lt hge)] at hg
    cases hg

/-- C1 witness: after provisioning one small locker and receiving one
package, the index entry for the customer points at the locker holding that
customer's package. -/
theorem c1_owner_index_sound_witness :
    LReachable c1WitState ∧ c1WitState.lockers_by_customer "c1" = some 0 ∧
    (0 < c1WitState.heap.length ∧ occupantAt c1WitState 0 = some "c1") := by
  have hreach : LReachable c1WitState :=
    Relation.ReflTransGen.tail
      (Relation.ReflTransGen.tail Relation.ReflTransGen.refl
        (LStep.provision emptyManager "S0" PackageSize.SMALL))
      (LStep.allocate (emptyManager.add_locker ⟨"S0", PackageSize.SMALL, none⟩)
        LStrategy.firstAvailable ⟨PackageSize.SMALL, "c1"⟩)
  exact ⟨hreach, rfl, c1_owner_index_sound c1WitState hreach "c1" 0 rfl⟩

/-- C1 counterexample: a reachable state violating the claimed iff.  The
same customer receives two packages with no retrieval in between (the code
has no duplicate-owner check); afterwards locker 0 still holds the
customer's first package while the index points at locker 1, so the index
and the unit occupancy fields disagree. -/
theorem c1_counterexample :
    LReachable c1CexState ∧
    occupantAt c1CexState 0 = some "dupCustomer" ∧
    c1CexState.lockers_by_customer "dupCustomer" = some 1 ∧
    ¬lockerIndexConsistent c1CexState := by
  have h1 : LStep emptyManager (emptyManager.add_locker ⟨"S0", PackageSize.SMALL, none⟩) :=
    LStep.provision emptyManager "S0" PackageSize.SMALL
  have h2 := LStep.provision (emptyManager.add_locker ⟨"S0", PackageSize.SMALL, none⟩)
    "S1" PackageSize.SMALL
  have h3 := LStep.allocate
    ((emptyManager.add_locker ⟨"S0", PackageSize.SMALL, none⟩).add_locker
      ⟨"S1", PackageSize.SMALL, none⟩)
    LStrategy.firstAvailable ⟨PackageSize.SMALL, "dupCustomer"⟩
  have h4 := LStep.allocate
    (receive_package LStrategy.firstAvailable
      ((emptyManager.add_locker ⟨"S0", PackageSize.SMALL, none⟩).add_locker
        ⟨"S1", PackageSize.SMALL, none⟩)
      ⟨PackageSize.SMALL, "dupCustomer"⟩).1
    LStrategy.firstAvailable ⟨PackageSize.SMALL, "dupCustomer"⟩
  have hreach : LReachable c1CexState :=
    Relation.ReflTransGen.tail (Relation.ReflTransGen.tail (Relation.ReflTransGen.tail
      (Relation.ReflTransGen.tail Relation.ReflTransGen.refl h1) h2) h3) h4
  refine ⟨hreach, rfl, rfl, ?_⟩
  intro hcon
  have h0 := (hcon "dupCustomer" 0 (by decide)).2 rfl
  exact absurd (h0.symm.trans
    (show c1CexState.lockers_by_customer "dupCustomer" = some 1 from rfl)) (by decide)

/-- C8: when an allocation succeeds at locker `r`, retrieving the same
customer's package restores the manager exactly: the object store returns to
its pre-allocation contents (so `r` is free again and the free-unit set is
unchanged), and the customer's index entry is gone. -/
theorem c8_round_trip (st : LStrategy) (m : LockerManager) (package : Package) (r : Nat)
    (h : (receive_package st m package).2 = some r) :
    (round_trip_state st m package).heap = m.heap ∧
    (round_trip_state st m package).lockers_by_customer package.customer_id = none ∧
    availAt (round_trip_state st m package) r = true ∧
    (∀ x, availAt (round_trip_state st m package) x = availAt m x) := by
  cases halloc : allocate_locker st m package with
  | mk m1 ro =>
    have hh : m1.heap = m.heap := by
      rw [← allocate_locker_fst_heap st m package, halloc]
    cases ro with
    | none =>
      have h2 : (receive_package st m package).2 = some r := h
      simp only [receive_package, halloc] at h2
      cases h2
    | some r0 =>
      have h2 : (receive_package st m package).2 = some r := h
      simp only [receive_package, halloc, Option.some.injEq] at h2
      subst h2
      have hrec : (receive_package st m package).1 = m1.store_package r0 package := by
        simp only [receive_package, halloc]
      have hav : availAt m r0 = true := by
        apply allocate_locker_avail st m package
        rw [halloc]
      obtain ⟨lk, hg, hpkg⟩ := availAt_spec m r0 hav
      have hlook : (m1.store_package r0 package).lockers_by_customer package.customer_id
          = some r0 := by
        rw [store_package_cust]
        simp
      have hret := retrieve_package_some_fst (m1.store_package r0 package)
        package.customer_id r0 hlook
      have hstate : round_trip_state st m package =
          ((m1.store_package r0 package).retrieve_package package.customer_id).1 := by
        rw [show round_trip_state st m package =
          ((receive_package st m package).1.retrieve_package package.customer_id).1 from rfl,
          hrec]
      have hfin_heap : (round_trip_state st m package).heap =
          listModify (listModify m1.heap r0
              (fun lk0 => { lk0 with package := some package }))
            r0 (fun lk0 => { lk0 with package := none }) := by
        rw [hstate, hret, store_package_heap]
      have hone : (round_trip_state st m package).heap = m.heap := by
        rw [hfin_heap, hh]
        apply List.ext
        intro n
        rw [get?_listModify, get?_listModify]
        by_cases hrn : r0 = n
        · subst hrn
          rw [if_pos rfl, if_pos rfl, hg]
          cases lk with
          | mk lid sz pk =>
            have hpk : pk = none := hpkg
            subst hpk
            rfl
        · rw [if_neg hrn, if_neg hrn]
      refine ⟨hone, ?_, ?_, ?_⟩
      · rw [hstate, hret]
        simp
      · rw [availAt, hone]
        exact hav
      · intro x
        rw [availAt, availAt, hone]

/-- C8 witness: the round trip on a one-locker pool. -/
theorem c8_round_trip_witness :
    (receive_package LStrategy.firstAvailable c8Manager c8Package).2 = some 0 ∧
    ((round_trip_state LStrategy.firstAvailable c8Manager c8Package).heap =
        c8Manager.heap ∧
      (round_trip_state LStrategy.firstAvailable c8Manager c8Package).lockers_by_customer
        c8Package.customer_id = none ∧
      availAt (round_trip_state LStrategy.firstAvailable c8Manager c8Package) 0 = true ∧
      (∀ x, availAt (round_trip_state LStrategy.firstAvailable c8Manager c8Package) x =
        availAt c8Manager x)) :=
  ⟨rfl, c8_round_trip LStrategy.firstAvailable c8Manager c8Package 0 rfl⟩

/-- C9 (amended): `add_parking_spot` creates the container first when the
container id is new (appending the new level at the end of the lot) and
otherwise appends the spot, in `Free` state (`vehicle = none`), at the end
of the first level whose id matches; it performs no validation at all — in
particular no unit-id uniqueness check (see the counterexample). -/
theorem c9_provision_appends (levels : List ParkingLevel) (level_id spot_id : String)
    (size : SpotSize) (d : Nat) :
    ((∀ l ∈ levels, l.level_id ≠ level_id) →
      add_parking_spot levels level_id spot_id size d =
        levels ++ [⟨level_id, [⟨spot_id, size, d, none⟩]⟩]) ∧
    (∀ k l, levels.get? k = some l → l.level_id = level_id →
      (∀ j l', j < k → levels.get? j = some l' → l'.level_id ≠ level_id) →
      add_parking_spot levels level_id spot_id size d =
        listModify levels k
          (fun lv => { lv with spots := lv.spots ++ [⟨spot_id, size, d, none⟩] })) := by
  induction levels with
  | nil =>
    constructor
    · intro _
      rfl
    · intro k l hk
      simp at hk
  | cons l0 rest ih =>
    constructor
    · intro hnone
      have hne := hnone l0 (List.mem_cons_self _ _)
      rw [add_parking_spot, if_neg (by simp [hne])]
      rw [ih.1 (fun l hl => hnone l (List.mem_cons_of_mem _ hl))]
      rfl
    · intro k l hk hl hfirst
      by_cases h0 : l0.level_id = level_id
      · cases k with
        | zero =>
          rw [add_parking_spot, if_pos (by simp [h0])]
          rfl
        | succ k' =>
          exact absurd h0 (hfirst 0 l0 (by omega) rfl)
      · cases k with
        | zero =>
          simp only [List.get?] at hk
          cases hk
          exact absurd hl h0
        | succ k' =>
          rw [add_parking_spot, if_neg (by simp [h0])]
          have hres := ih.2 k' l (by simpa using hk) hl
            (fun j l' hj hl' => hfirst (j + 1) l' (by omega) (by simpa using hl'))
          rw [hres]
          rfl

/-- C9 witness: provisioning into an empty lot creates the level; a second
provision with the same level id appends to that level's spot list. -/
theorem c9_provision_appends_witness :
    add_parking_spot [] "L1" "A1" SpotSize.compact 10 =
      [⟨"L1", [⟨"A1", SpotSize.compact, 10, none⟩]⟩] ∧
    add_parking_spot c9Lot1 "L1" "A1" SpotSize.compact 12 =
      listModify c9Lot1 0
        (fun lv => { lv with spots := lv.spots ++ [⟨"A1", SpotSize.compact, 12, none⟩] }) := by
  constructor
  · exact (c9_provision_appends [] "L1" "A1" SpotSize.compact 10).1 (by simp)
  · exact (c9_provision_appends c9Lot1 "L1" "A1" SpotSize.compact 12).2 0
      ⟨"L1", [⟨"A1", SpotSize.compact, 10, none⟩]⟩ rfl rfl
      (fun j l' hj _ => absurd hj (by omega))

/-- C9 counterexample: provisioning a spot whose id `A1` already exists does
not fail — the duplicate is appended, leaving two units with the same id. -/
theorem c9_counterexample :
    (allSpots c9Lot2).length = 2 ∧
    ((allSpots c9Lot2).get? 0).map ParkingSpot.spot_id = some "A1" ∧
    ((allSpots c9Lot2).get? 1).map ParkingSpot.spot_id = some "A1" ∧
    ((allSpots c9Lot2).get? 1).map ParkingSpot.vehicle = some none :=
  ⟨rfl, rfl, rfl, rfl⟩

/-- C10: every controller operates on the process-wide singleton manager:
constructing further controllers (with any strategies) leaves the existing
singleton state untouched, and a package received through one controller is
retrieved through another. -/
theorem c10_shared_singleton (p : LockerProcess) (st1 st2 : LStrategy)
    (package : Package) (m : LockerManager) (hp : p.shared_instance = some m)
    (q1 q2 p3 : LockerProcess) (a b r : Nat)
    (h1 : new_controller p st1 = (q1, a)) (h2 : new_controller q1 st2 = (q2, b))
    (h3 : controller_receive q2 a package = (p3, some r)) :
    q1.shared_instance = some m ∧ q2.shared_instance = some m ∧
    (controller_retrieve p3 b package.customer_id).2 = some package := by
  simp only [new_controller, hp, LockerManager_new] at h1
  injection h1 with hq1 ha
  subst hq1
  subst ha
  simp only [new_controller, LockerManager_new] at h2
  injection h2 with hq2 hb
  subst hq2
  subst hb
  refine ⟨rfl, rfl, ?_⟩
  simp only [controller_receive] at h3
  have hget1 : ((p.controllers ++ [st1]) ++ [st2]).get? p.controllers.length
      = some st1 := by
    rw [List.get?_append (by simp)]
    exact List.get?_concat_length _ _
  rw [hget1] at h3
  simp only at h3
  injection h3 with hp3 hr
  have hget2 : ((p.controllers ++ [st1]) ++ [st2]).get? (p.controllers ++ [st1]).length
      = some st2 := List.get?_concat_length _ _
  have hc : p3.controllers = (p.controllers ++ [st1]) ++ [st2] := by rw [← hp3]
  have hs : p3.shared_instance = some (receive_package st1 m package).1 := by rw [← hp3]
  simp only [controller_retrieve]
  rw [hc, hget2, hs]
  show ((receive_package st1 m package).1.retrieve_package package.customer_id).2
    = some package
  -- it remains to evaluate the retrieval on the post-receive manager
  cases halloc : allocate_locker st1 m package with
  | mk m1 ro =>
    have hh : m1.heap = m.heap := by
      rw [← allocate_locker_fst_heap st1 m package, halloc]
    cases ro with
    | none =>
      rw [receive_package] at hr ⊢
      rw [halloc] at hr
      cases hr
    | some r0 =>
      have hr2 : (receive_package st1 m package).2 = some r := hr
      simp only [receive_package, halloc, Option.some.injEq] at hr2
      subst hr2
      have hrec : (receive_package st1 m package).1 = m1.store_package r0 package := by
        simp only [receive_package, halloc]
      have hav : availAt m r0 = true := by
        apply allocate_locker_avail st1 m package
        rw [halloc]
      obtain ⟨lk, hg, hpkg⟩ := availAt_spec m r0 hav
      have hlook : (m1.store_package r0 package).lockers_by_customer package.customer_id
          = some r0 := by
        rw [store_package_cust]
        simp
      rw [hrec, retrieve_package_some_snd _ _ _ hlook, store_package_heap,
        get?_listModify, if_pos rfl, hh, hg]
      rfl

/-- C10 witness: two controllers constructed on a process whose singleton
holds one free small locker; receiving through the first controller and
retrieving through the second returns the package. -/
theorem c10_shared_singleton_witness :
    c10Proc.shared_instance =
      some (emptyManager.add_locker ⟨"S0", PackageSize.SMALL, none⟩) ∧
    (({ shared_instance := some (emptyManager.add_locker ⟨"S0", PackageSize.SMALL, none⟩),
        controllers := [LStrategy.firstAvailable] } : LockerProcess).shared_instance =
      some (emptyManager.add_locker ⟨"S0", PackageSize.SMALL, none⟩) ∧
    ({ shared_instance := some (emptyManager.add_locker ⟨"S0", PackageSize.SMALL, none⟩),
        controllers := [LStrategy.firstAvailable, LStrategy.firstAvailable] } :
          LockerProcess).shared_instance =
      some (emptyManager.add_locker ⟨"S0", PackageSize.SMALL, none⟩) ∧
    (controller_retrieve
      { shared_instance := some (receive_package LStrategy.firstAvailable
          (emptyManager.add_locker ⟨"S0", PackageSize.SMALL, none⟩) c10Package).1,
        controllers := [LStrategy.firstAvailable, LStrategy.firstAvailable] }
      1 c10Package.customer_id).2 = some c10Package) :=
  ⟨rfl, c10_shared_singleton c10Proc LStrategy.firstAvailable LStrategy.firstAvailable
    c10Package (emptyManager.add_locker ⟨"S0", PackageSize.SMALL, none⟩) rfl
    { shared_instance := some (emptyManager.add_locker ⟨"S0", PackageSize.SMALL, none⟩),
      controllers := [LStrategy.firstAvailable] }
    { shared_instance := some (emptyManager.add_locker ⟨"S0", PackageSize.SMALL, none⟩),
      controllers := [LStrategy.firstAvailable, LStrategy.firstAvailable] }
    { shared_instance := some (receive_package LStrategy.firstAvailable
        (emptyManager.add_locker ⟨"S0", PackageSize.SMALL, none⟩) c10Package).1,
      controllers := [LStrategy.firstAvailable, LStrategy.firstAvailable] }
    0 1 0 rfl rfl rfl⟩
